import Mathlib

/-!
# Verification of the chip-8 interpreter (src/chip_8.rs)

Shallow embedding of the interpreter core: registers, timers, decoder,
framebuffer / sprite drawing, memory block save & load, ROM loading and
the fetch / decode / execute cycle.  Machine integers (u8, u16, usize)
are embedded as Nat with explicit wrap-around (% 256, saturating Nat
subtraction) exactly where the Rust code wraps or saturates.  Rust
panics (failed asserts, out-of-bounds indexing, the catch-all
panic arms in execute) are embedded as the Option None outcome.
-/

namespace Chip8

/-- RAM_SIZE from the source: 4096 bytes. -/
def RAM_SIZE : Nat := 4096

/-- RAM_ROM_START from the source: 0x200. -/
def RAM_ROM_START : Nat := 0x200

/-- FONT_START from the source: 0x50. -/
def FONT_START : Nat := 0x50

/-- FONT_SIZE from the source: 80 bytes. -/
def FONT_SIZE : Nat := 80

/-- DISPLAY_WIDTH from the source: 64 columns. -/
def DISPLAY_WIDTH : Nat := 64

/-- DISPLAY_HEIGHT from the source: 32 rows. -/
def DISPLAY_HEIGHT : Nat := 32

/-- type Ram = [u8; 4096]: a function from addresses to byte values. -/
abbrev Ram := Fin 4096 → Nat

/-- type Display = [[bool; 64]; 32], indexed display row col
(mirroring the source's display[curr_y][pixel_x]). -/
abbrev Display := Nat → Nat → Bool

/-- DISPLAY_EMPTY from the source: all pixels off. -/
def DISPLAY_EMPTY : Display := fun _ _ => false

/-- The Timers struct: two u8 countdown counters. -/
structure Timers where
  delay : Nat
  buzzer : Nat
  deriving DecidableEq, Repr

/-- Timers::update: both counters are decremented with
u8::saturating_sub(1); Nat subtraction is exactly saturating. -/
def Timers.update (t : Timers) : Timers :=
  { delay := t.delay - 1, buzzer := t.buzzer - 1 }

/-- The Registers struct: pc, i, and the sixteen v-registers v0..vf
(the sixteen named u8 fields of the source, as one indexed family). -/
structure Registers where
  pc : Nat
  i : Nat
  v : Fin 16 → Nat

/-- Registers::get.  The source asserts reg >> 4 == 0 (panicking
otherwise) and then matches on reg & 0xF; each call site in execute
passes a decoded nibble < 16, so the assert never fires there, and the
match on reg & 0xF is embedded as indexing at reg % 16. -/
def Registers.get (r : Registers) (reg : Nat) : Nat :=
  r.v ⟨reg % 16, Nat.mod_lt _ (by omega)⟩

/-- Registers::set, via get_reg: same assert and reg & 0xF masking as
Registers::get, then the chosen register field is overwritten. -/
def Registers.set (r : Registers) (reg : Nat) (val : Nat) : Registers :=
  { r with v := Function.update r.v ⟨reg % 16, Nat.mod_lt _ (by omega)⟩ val }

/-- The Chip8Instr enum of the source, one constructor per variant. -/
inductive Chip8Instr where
  | Clear
  | Return
  | Jump (nnn : Nat)
  | Call (nnn : Nat)
  | IfNE (x nn : Nat)
  | IfE (x nn : Nat)
  | IfRNE (x y : Nat)
  | Set (x nn : Nat)
  | Add (x nn : Nat)
  | SetR (x y : Nat)
  | BitOp (x y n : Nat)
  | ArithmOp (x y n : Nat)
  | ShiftOp (x y n : Nat)
  | IfRE (x y : Nat)
  | SetI (nnn : Nat)
  | JumpOff (nnn : Nat)
  | Rand (x nn : Nat)
  | Display (x y n : Nat)
  | KeyUp (x : Nat)
  | KeyDown (x : Nat)
  | GetDelay (x : Nat)
  | GetKey (x : Nat)
  | SetDelay (x : Nat)
  | SetBuzzer (x : Nat)
  | IncrI (x : Nat)
  | Char (x : Nat)
  | Decimal (x : Nat)
  | Save (x : Nat)
  | Load (x : Nat)
  | Unknown
  deriving DecidableEq, Repr

/-- impl From u16 for Chip8Instr: the decoder.  Field extraction and
the family dispatch mirror the source arm for arm; the guard clauses
(n == 0xE on family 0, the n guards on family 8, the nn guards on
family 0xF) become nested conditionals in source order. -/
def Chip8Instr.fromWord (input : Nat) : Chip8Instr :=
  let x := input >>> 8 &&& 0xF
  let y := input >>> 4 &&& 0xF
  let n := input &&& 0xF
  let nn := input &&& 0xFF
  let nnn := input &&& 0xFFF
  match input >>> 12 with
  | 0 => if n = 0xE then .Return else .Clear
  | 1 => .Jump nnn
  | 2 => .Call nnn
  | 3 => .IfNE x nn
  | 4 => .IfE x nn
  | 5 => .IfRNE x y
  | 6 => .Set x nn
  | 7 => .Add x nn
  | 8 =>
      if n = 0 then .SetR x y
      else if n < 4 then .BitOp x y n
      else if n = 6 ∨ n = 0xE then .ShiftOp x y n
      else .ArithmOp x y n
  | 9 => .IfRE x y
  | 0xA => .SetI nnn
  | 0xB => .JumpOff nnn
  | 0xC => .Rand x nn
  | 0xD => .Display x y n
  | 0xE => if n = 0xE then .KeyUp x else .KeyDown x
  | 0xF =>
      if nn = 0x07 then .GetDelay x
      else if nn = 0x0A then .GetKey x
      else if nn = 0x15 then .SetDelay x
      else if nn = 0x18 then .SetBuzzer x
      else if nn = 0x1E then .IncrI x
      else if nn = 0x29 then .Char x
      else if nn = 0x33 then .Decimal x
      else if nn = 0x55 then .Save x
      else if nn = 0x65 then .Load x
      else .Unknown
  | _ => .Unknown

/-- The Chip8VMOptions struct: debug output flags plus the three
quirk toggles for ambiguous instructions. -/
structure Chip8VMOptions where
  hide_display : Bool := false
  debug : Bool := false
  debug_ram : Bool := false
  keep_display : Bool := false
  incr_i_when_mem : Bool := false
  new_jump_off : Bool := false
  old_shift : Bool := false
  deriving DecidableEq, Repr

/-- External inputs consumed inside a single execute call: the byte
drawn by rand::random in the Rand arm, and the character code read
from stdin in the GetKey arm. -/
structure Inputs where
  randByte : Nat := 0
  keyChar : Nat := 0
  deriving DecidableEq, Repr

/-- The Chip8VM struct.  The TimersWrapper thread and lock machinery is
elided: the shared Timers value itself is the state. -/
structure Chip8VM where
  ram : Ram
  display : Display
  registers : Registers
  timers : Timers
  stack : List Nat
  freq : Nat
  options : Chip8VMOptions

/-- Indexing self.ram[addr]: Rust panics when addr is out of bounds,
embedded as none. -/
def ramGet (ram : Ram) (addr : Nat) : Option Nat :=
  if h : addr < 4096 then some (ram ⟨addr, h⟩) else none

/-- Writing self.ram[addr] = val: Rust panics when addr is out of
bounds, embedded as none. -/
def ramSet (ram : Ram) (addr : Nat) (val : Nat) : Option Ram :=
  if h : addr < 4096 then some (Function.update ram ⟨addr, h⟩ val) else none

/-- The slice &self.ram[a..a+len]: Rust panics when the end exceeds the
array, embedded as none. -/
def ramSlice (ram : Ram) (a len : Nat) : Option (List Nat) :=
  if h : a + len ≤ 4096 then
    some (List.ofFn fun k : Fin len => ram ⟨a + k.val, by omega⟩)
  else none

/-- Chip8VM::incr_pc: self.registers.pc += 2. -/
def Chip8VM.incr_pc (vm : Chip8VM) : Chip8VM :=
  { vm with registers := { vm.registers with pc := vm.registers.pc + 2 } }

/-- The inner column loop of Chip8VM::draw_sprite, for one sprite row.
The loop variable is c = curr_x - x, running 0..8 (fuel counts the
remaining iterations and starts at 8, so the recursion is structural);
the two breaks (curr_x off-screen, pixel_x off-screen) return the
accumulated state unchanged, abandoning the rest of the row exactly as
break does.  The state is the display paired with the v-register
family, since the loop body writes register 15 (via
registers.set(15, ..)) on every drawn pixel and XORs one pixel of the
display. -/
def drawCols (x yrow rowByte : Nat) : Nat → Nat → Display × (Fin 16 → Nat) →
    Display × (Fin 16 → Nat)
  | 0, _, st => st
  | fuel + 1, c, st =>
    if 64 ≤ x + c then st
    else
      let pixel_x := x + 8 - c
      if 64 ≤ pixel_x then st
      else
        let pixel : Bool := st.1 yrow pixel_x
        let sprite_value : Bool := (rowByte >>> c) &&& 1 == 1
        let vf : Nat := if pixel && sprite_value then 1 else 0
        let v' := Function.update st.2 ⟨15, by omega⟩ vf
        let d' : Display := fun r col =>
          if r = yrow ∧ col = pixel_x then xor (st.1 r col) sprite_value
          else st.1 r col
        drawCols x yrow rowByte fuel (c + 1) (d', v')

/-- The outer row loop of Chip8VM::draw_sprite.  The loop variable is
r = curr_y - y, running 0..height (fuel counts the remaining rows and
starts at height); the break when curr_y reaches the bottom edge
returns the accumulated state, abandoning all later rows.
sprite.getD r 0 is sprite_data[curr_y - y]; the slice always has
length = height at the call site, so the index is in range. -/
def drawRows (x y : Nat) (sprite : List Nat) : Nat → Nat →
    Display × (Fin 16 → Nat) → Display × (Fin 16 → Nat)
  | 0, _, st => st
  | fuel + 1, r, st =>
    if 32 ≤ y + r then st
    else drawRows x y sprite fuel (r + 1) (drawCols x (y + r) (sprite.getD r 0) 8 0 st)

/-- Chip8VM::draw_sprite: slices the sprite bytes out of ram (a Rust
panic when the slice end passes the array, hence Option), then runs the
two nested loops over the display and the v-registers. -/
def Chip8VM.draw_sprite (vm : Chip8VM) (x y sprite_addr sprite_height : Nat) :
    Option Chip8VM :=
  (ramSlice vm.ram sprite_addr sprite_height).map fun sprite =>
    let p := drawRows x y sprite sprite_height 0 (vm.display, vm.registers.v)
    { vm with display := p.1, registers := { vm.registers with v := p.2 } }

/-- The Save loop: for i in 0..=n writes self.ram[i0 + i] =
registers.get(i) in ascending order; an out-of-bounds write is a Rust
panic, hence Option. -/
def saveRegs (regs : Registers) (i0 : Nat) (ram : Ram) : Nat → Option Ram
  | 0 => ramSet ram i0 (regs.get 0)
  | n + 1 => (saveRegs regs i0 ram n).bind fun r =>
      ramSet r (i0 + (n + 1)) (regs.get (n + 1))

/-- The Load loop: for i in 0..=n sets registers.set(i, self.ram[i0 + i])
in ascending order; an out-of-bounds read is a Rust panic, hence
Option. -/
def loadRegs (ram : Ram) (i0 : Nat) (regs : Registers) : Nat → Option Registers
  | 0 => (ramGet ram i0).map fun val => regs.set 0 val
  | n + 1 => (loadRegs ram i0 regs n).bind fun r =>
      (ramGet ram (i0 + (n + 1))).map fun val => r.set (n + 1) val

/-- The character-to-key mapping inside the GetKey arm: ascii digits,
lowercase and uppercase hex letters map to 0..15, everything else to
16 ("no valid key"). -/
def charToKey (k : Nat) : Nat :=
  if 48 ≤ k ∧ k ≤ 57 then k - 48
  else if 97 ≤ k ∧ k ≤ 122 then k - 97 + 10
  else if 65 ≤ k ∧ k ≤ 90 then k - 65 + 10
  else 16

/-- u8::overflowing_add on byte values embedded as Nat: wrapped sum and
the carry-out flag. -/
def u8_overflowing_add (a b : Nat) : Nat × Bool :=
  ((a + b) % 256, decide (256 ≤ a + b))

/-- u8::overflowing_sub on byte values embedded as Nat: wrapped
difference and the borrow flag (set exactly when a < b). -/
def u8_overflowing_sub (a b : Nat) : Nat × Bool :=
  ((a + 256 - b) % 256, decide (a < b))

/-- Chip8VM::execute.  Option none embeds every panic path: the expect
on Return with an empty stack, the catch-all panic arms inside BitOp /
ArithmOp / ShiftOp, out-of-bounds ram indexing in Decimal / Save /
Load / draw_sprite, and the final `_ => panic!` arm (which, with every
other variant matched earlier, is reached exactly by Unknown).  In the
ArithmOp arm the source computes (r, o), negates o for the two
subtraction ops, then writes register 15 before register x — so for
x = 15 the result overwrites the flag.  In the ShiftOp arm the source
writes register x before register 15.  Console printing and the
display() call are elided; the KeyUp / KeyDown arms only print, so
they leave the state unchanged. -/
def Chip8VM.execute (vm : Chip8VM) (instruction : Chip8Instr) (inp : Inputs) :
    Option Chip8VM :=
  match instruction with
  | .Clear => some { vm with display := DISPLAY_EMPTY }
  | .Return =>
      match vm.stack with
      | [] => none
      | a :: rest =>
          some { vm with registers := { vm.registers with pc := a }, stack := rest }
  | .Jump nnn => some { vm with registers := { vm.registers with pc := nnn } }
  | .Call nnn =>
      some { vm with stack := vm.registers.pc :: vm.stack,
                     registers := { vm.registers with pc := nnn } }
  | .IfNE x nn =>
      if vm.registers.get x = nn then some vm.incr_pc else some vm
  | .IfE x nn =>
      if vm.registers.get x ≠ nn then some vm.incr_pc else some vm
  | .IfRNE x y =>
      if vm.registers.get x = vm.registers.get y then some vm.incr_pc else some vm
  | .Set x nn => some { vm with registers := vm.registers.set x nn }
  | .Add x nn =>
      some { vm with registers := vm.registers.set x ((vm.registers.get x + nn) % 256) }
  | .SetR x y => some { vm with registers := vm.registers.set x (vm.registers.get y) }
  | .BitOp x y op =>
      match op with
      | 1 => some { vm with registers := vm.registers.set x (vm.registers.get x ||| vm.registers.get y) }
      | 2 => some { vm with registers := vm.registers.set x (vm.registers.get x &&& vm.registers.get y) }
      | 3 => some { vm with registers := vm.registers.set x (vm.registers.get x ^^^ vm.registers.get y) }
      | _ => none
  | .ArithmOp x y op =>
      match op with
      | 4 =>
          let p := u8_overflowing_add (vm.registers.get x) (vm.registers.get y)
          let r2 := (vm.registers.set 15 (if p.2 then 1 else 0)).set x p.1
          some { vm with registers := r2 }
      | 5 =>
          let p := u8_overflowing_sub (vm.registers.get x) (vm.registers.get y)
          let r2 := (vm.registers.set 15 (if !p.2 then 1 else 0)).set x p.1
          some { vm with registers := r2 }
      | 7 =>
          let p := u8_overflowing_sub (vm.registers.get y) (vm.registers.get x)
          let r2 := (vm.registers.set 15 (if !p.2 then 1 else 0)).set x p.1
          some { vm with registers := r2 }
      | _ => none
  | .ShiftOp x y op =>
      let vm1 := if vm.options.old_shift = true then
          { vm with registers := vm.registers.set x (vm.registers.get y) }
        else vm
      let v := vm1.registers.get x
      match op with
      | 6 =>
          let r2 := (vm1.registers.set x ((v &&& 0xFE) >>> 1)).set 15
            (if v &&& 1 == 1 then 1 else 0)
          some { vm1 with registers := r2 }
      | 0xE =>
          let r2 := (vm1.registers.set x ((v &&& 0x7F) <<< 1)).set 15
            (if v &&& 128 != 0 then 1 else 0)
          some { vm1 with registers := r2 }
      | _ => none
  | .IfRE x y =>
      if vm.registers.get x ≠ vm.registers.get y then some vm.incr_pc else some vm
  | .SetI nnn => some { vm with registers := { vm.registers with i := nnn } }
  | .JumpOff nnn =>
      if vm.options.new_jump_off = true then
        some { vm with registers :=
          { vm.registers with pc := nnn + vm.registers.get (nnn >>> 8) } }
      else
        some { vm with registers :=
          { vm.registers with pc := nnn + vm.registers.get 0 } }
  | .Rand x nn =>
      some { vm with registers := vm.registers.set x (nn &&& inp.randByte) }
  | .Display vx vy n =>
      vm.draw_sprite (vm.registers.get vx % DISPLAY_WIDTH)
        (vm.registers.get vy % DISPLAY_HEIGHT) vm.registers.i n
  | .KeyUp _ => some vm
  | .KeyDown _ => some vm
  | .GetDelay x =>
      some { vm with registers := vm.registers.set x vm.timers.delay }
  | .GetKey x =>
      let key := charToKey inp.keyChar
      if key < 16 then
        some { vm with registers := vm.registers.set x (key &&& 0xF) }
      else some vm
  | .SetDelay x =>
      some { vm with timers := { vm.timers with delay := vm.registers.get x } }
  | .SetBuzzer x =>
      some { vm with timers := { vm.timers with buzzer := vm.registers.get x } }
  | .IncrI x =>
      some { vm with registers :=
        { vm.registers with i := vm.registers.i + vm.registers.get x } }
  | .Char x =>
      some { vm with registers :=
        { vm.registers with i := FONT_START + 5 * (vm.registers.get x &&& 0xF) } }
  | .Decimal x =>
      let val := vm.registers.get x
      (ramSet vm.ram vm.registers.i (val / 100)).bind fun r1 =>
      (ramSet r1 (vm.registers.i + 1) (val % 100 / 10)).bind fun r2 =>
      (ramSet r2 (vm.registers.i + 2) (val % 10)).map fun r3 =>
        { vm with ram := r3 }
  | .Save x =>
      (saveRegs vm.registers vm.registers.i vm.ram x).map fun r =>
        let i2 := if vm.options.incr_i_when_mem = true then vm.registers.i + x
          else vm.registers.i
        { vm with ram := r, registers := { vm.registers with i := i2 } }
  | .Load x =>
      (loadRegs vm.ram vm.registers.i vm.registers x).map fun r =>
        let i2 := if vm.options.incr_i_when_mem = true then r.i + x else r.i
        { vm with registers := { r with i := i2 } }
  | .Unknown => none

/-- Chip8VM::fetch_instruction: big-endian 16-bit word from the two
bytes at pc and pc + 1. -/
def Chip8VM.fetch_instruction (vm : Chip8VM) : Option Nat :=
  (ramGet vm.ram vm.registers.pc).bind fun b1 =>
  (ramGet vm.ram (vm.registers.pc + 1)).map fun b2 => b1 * 256 + b2

/-- Chip8VM::run_once: fetch, decode, advance pc by 2, execute. -/
def Chip8VM.run_once (vm : Chip8VM) (inp : Inputs) : Option Chip8VM :=
  vm.fetch_instruction.bind fun w =>
    Chip8VM.execute vm.incr_pc (Chip8Instr.fromWord w) inp

/-- Chip8VM::load_rom: asserts rom.len() <= RAM_SIZE - RAM_ROM_START,
panicking (none) otherwise before anything is written, then copies the
rom bytes verbatim to addresses RAM_ROM_START onward. -/
def Chip8VM.load_rom (vm : Chip8VM) (rom : List Nat) : Option Chip8VM :=
  if rom.length ≤ RAM_SIZE - RAM_ROM_START then
    let newRam : Ram := fun a =>
      if h : RAM_ROM_START ≤ a.val ∧ a.val < RAM_ROM_START + rom.length then
        rom.get ⟨a.val - RAM_ROM_START, by omega⟩
      else vm.ram a
    some { vm with ram := newRam }
  else none

/-- One fetch/decode/execute cycle relates a state to a successor, for
some choice of the external inputs of that cycle. -/
def StepRel (a b : Chip8VM) : Prop := ∃ inp, a.run_once inp = some b

/-- Reachability by fetch/execute cycles. -/
def Reachable : Chip8VM → Chip8VM → Prop := Relation.ReflTransGen StepRel

/-! ## Concrete states used by the witnesses and counterexamples -/

/-- Registers as after Chip8VM::new: pc at the rom start, all else 0. -/
def zeroRegs : Registers := { pc := 0x200, i := 0, v := fun _ => 0 }

/-- A fully blank machine (pc = 0x200, clear display, empty stack). -/
def baseVM : Chip8VM :=
  { ram := fun _ => 0, display := DISPLAY_EMPTY,
    registers := zeroRegs, timers := { delay := 0, buzzer := 0 },
    stack := [], freq := 700, options := {} }

/-- Default external inputs. -/
def inp0 : Inputs := {}

/-- Ram holding a single byte b at address 0x300. -/
def ram300 (b : Nat) : Ram := fun a => if a.val = 0x300 then b else 0

/-- Registers with the index register pointing at 0x300. -/
def regsI : Registers := { zeroRegs with i := 0x300 }

/-- A display with exactly the pixel at row 0, column 8 on. -/
def dispOneOn : Display := fun r c => decide (r = 0 ∧ c = 8)

/-- Machine for the column-placement check: sprite byte 0x01 at 0x300,
origin (0,0), blank display. -/
def vmD1 : Chip8VM := { baseVM with ram := ram300 0x01, registers := regsI }

/-- Machine for the collision-flag check: sprite byte 0xFF at 0x300,
origin (0,0), exactly pixel (row 0, col 8) lit. -/
def vmD2 : Chip8VM :=
  { baseVM with ram := ram300 0xFF, display := dispOneOn, registers := regsI }

/-- Registers with v0 = 56 and the index register at 0x300. -/
def regs56 : Registers :=
  { zeroRegs with i := 0x300, v := fun j => if j.val = 0 then 56 else 0 }

/-- Machine for the right-edge check: sprite byte 0xFF, origin x = 56. -/
def vmD3 : Chip8VM := { baseVM with ram := ram300 0xFF, registers := regs56 }

/-- Machine for the double-draw check: sprite byte 0xFF, origin (0,0),
blank display. -/
def vmD4 : Chip8VM := { baseVM with ram := ram300 0xFF, registers := regsI }

/-- Registers with vf = 255 and v0 = 1. -/
def regsA : Registers :=
  { zeroRegs with v := fun j => if j.val = 15 then 255 else if j.val = 0 then 1 else 0 }

/-- Machine for the x = 0xF arithmetic check. -/
def vmA : Chip8VM := { baseVM with registers := regsA }

/-- Registers with v0 = 0xFF and v1 = 1. -/
def regsA2 : Registers :=
  { zeroRegs with v := fun j => if j.val = 0 then 0xFF else if j.val = 1 then 1 else 0 }

/-- Machine for the 0xFF + 0x01 example. -/
def vmA2 : Chip8VM := { baseVM with registers := regsA2 }

/-- Registers with v0 = 1 and v1 = 2. -/
def regsA3 : Registers :=
  { zeroRegs with v := fun j => if j.val = 0 then 1 else if j.val = 1 then 2 else 0 }

/-- Machine for the 0x01 - 0x02 example. -/
def vmA3 : Chip8VM := { baseVM with registers := regsA3 }

/-- Options with the save/load index-increment quirk enabled. -/
def optQ : Chip8VMOptions := { incr_i_when_mem := true }

/-- Machine for the save/load quirk check: index at 0x300, quirk on. -/
def vmS : Chip8VM := { baseVM with registers := regsI, options := optQ }

/-- Ram holding the single instruction word 0x1201 (jump to the odd
address 0x201) at the rom start. -/
def ramJodd : Ram :=
  fun a => if a.val = 0x200 then 0x12 else if a.val = 0x201 then 0x01 else 0

/-- Machine whose loaded program is the single word 0x1201. -/
def vmJ : Chip8VM := { baseVM with ram := ramJodd }

/-- The state after executing that jump: pc = 0x201, odd. -/
def vmJodd : Chip8VM := { vmJ with registers := { vmJ.registers with pc := 0x201 } }

/-- Ram holding the single instruction word 0x1202 (jump to the even
address 0x202) at the rom start. -/
def ramJeven : Ram :=
  fun a => if a.val = 0x200 then 0x12 else if a.val = 0x201 then 0x02 else 0

/-- Machine whose loaded program is the single word 0x1202. -/
def vmJw : Chip8VM := { baseVM with ram := ramJeven }

/-- The state after executing that jump: pc = 0x202, even. -/
def vmJw2 : Chip8VM := { vmJw with registers := { vmJw.registers with pc := 0x202 } }

/-- The control-transfer targets of one decoded instruction are even
(vacuously true for instructions that do not load the pc with a fresh
address). -/
def jumpTargetsEven (vm : Chip8VM) : Chip8Instr → Prop
  | .Jump nnn => nnn % 2 = 0
  | .Call nnn => nnn % 2 = 0
  | .JumpOff nnn =>
      (if vm.options.new_jump_off = true then nnn + vm.registers.get (nnn >>> 8)
       else nnn + vm.registers.get 0) % 2 = 0
  | _ => True

/-! ## Register file lemmas -/

/-- Reading back a register after a write: the masked indices decide
whether the written value or the old one is seen. -/
theorem Registers.get_set (r : Registers) (j val k : Nat) :
    (r.set j val).get k = if k % 16 = j % 16 then val else r.get k := by
  simp only [Registers.get, Registers.set, Function.update_apply, Fin.mk.injEq]

/-- A register write never moves the program counter. -/
theorem Registers.pc_set (r : Registers) (j val : Nat) :
    (r.set j val).pc = r.pc := rfl

/-- A register write never moves the index register. -/
theorem Registers.i_set (r : Registers) (j val : Nat) :
    (r.set j val).i = r.i := rfl

/-! ## Claims -/

/-- C5: the decoder is a total function — every 16-bit word yields
exactly one instruction value — and it maps the documented literal
opcodes to exactly the documented variant and payload: 0x00E0 to Clear,
0x00EE to Return, 0x1245 to Jump 0x245, 0x7F4A to Add 0xF 0x4A, 0xD6FA
to the draw variant with payload (6, 0xF, 0xA), and 0xF055 to Save 0. -/
theorem C5_decoder_total_and_table :
    (∀ w : Nat, ∃ instr : Chip8Instr, Chip8Instr.fromWord w = instr) ∧
    Chip8Instr.fromWord 0x00E0 = .Clear ∧
    Chip8Instr.fromWord 0x00EE = .Return ∧
    Chip8Instr.fromWord 0x1245 = .Jump 0x245 ∧
    Chip8Instr.fromWord 0x7F4A = .Add 0xF 0x4A ∧
    Chip8Instr.fromWord 0xD6FA = .Display 6 0xF 0xA ∧
    Chip8Instr.fromWord 0xF055 = .Save 0 :=
  ⟨fun w => ⟨Chip8Instr.fromWord w, rfl⟩, by decide, by decide, by decide,
    by decide, by decide, by decide⟩

/-- C9: one decay tick maps each of the two counters v to v - 1 when
v > 0 and to 0 when v = 0; in particular a counter already at 0 stays
at 0 (saturating decrement, never wrapping to 255). -/
theorem C9_timers_saturate (t : Timers) :
    t.update.delay = (if 0 < t.delay then t.delay - 1 else 0) ∧
    t.update.buzzer = (if 0 < t.buzzer then t.buzzer - 1 else 0) ∧
    Timers.update { delay := 0, buzzer := 0 } = { delay := 0, buzzer := 0 } := by
  refine ⟨?_, ?_, rfl⟩ <;> simp only [Timers.update] <;> split <;> omega

/-- C10: the skip semantics the code implements.  The decoder names
family 0x3 IfNE, 0x4 IfE, 0x5 IfRNE and 0x9 IfRE, and execute skips
(advances pc by an additional 2) exactly when VX = NN for IfNE, when
VX is not NN for IfE, when VX = VY for IfRNE and when VX is not VY for
IfRE — the conventional CHIP-8 skip conditions under inverted variant
names. -/
theorem C10_skip_semantics :
    Chip8Instr.fromWord 0x3A42 = .IfNE 10 0x42 ∧
    Chip8Instr.fromWord 0x4A42 = .IfE 10 0x42 ∧
    Chip8Instr.fromWord 0x5AB7 = .IfRNE 10 11 ∧
    Chip8Instr.fromWord 0x9AB7 = .IfRE 10 11 ∧
    (∀ (vm : Chip8VM) (inp : Inputs) (x nn : Nat), vm.execute (.IfNE x nn) inp =
      some (if vm.registers.get x = nn then vm.incr_pc else vm)) ∧
    (∀ (vm : Chip8VM) (inp : Inputs) (x nn : Nat), vm.execute (.IfE x nn) inp =
      some (if vm.registers.get x ≠ nn then vm.incr_pc else vm)) ∧
    (∀ (vm : Chip8VM) (inp : Inputs) (x y : Nat), vm.execute (.IfRNE x y) inp =
      some (if vm.registers.get x = vm.registers.get y then vm.incr_pc else vm)) ∧
    (∀ (vm : Chip8VM) (inp : Inputs) (x y : Nat), vm.execute (.IfRE x y) inp =
      some (if vm.registers.get x ≠ vm.registers.get y then vm.incr_pc else vm)) := by
  refine ⟨by decide, by decide, by decide, by decide, ?_, ?_, ?_, ?_⟩ <;>
    intro vm inp a b <;> simp only [Chip8VM.execute] <;> split <;> simp

/-- C1 (code bug): the collision flag is not "1 iff some lit pixel was
erased".  The loop writes register 15 afresh on every drawn pixel, so
the flag records only the last drawn pixel.  Part 1: drawing 0xFF at
(0,0) over a display whose only lit pixel is (row 0, col 8) erases that
pixel yet ends with flag 0.  Part 2: the claim's own example — drawing
the single-row sprite 0xFF twice at the same in-bounds origin — yields
flag 0 (not 1) after the second draw when x = 56, because the inner
loop breaks out before drawing anything and never touches the flag. -/
theorem C1_collision_flag_bug :
    ((vmD2.execute (.Display 0 0 1) inp0).map fun s =>
      (s.registers.get 15, s.display 0 8)) = some (0, false) ∧
    (((vmD3.execute (.Display 0 1 1) inp0).bind fun s =>
      s.execute (.Display 0 1 1) inp0).map fun s =>
        s.registers.get 15) = some 0 := by
  constructor <;> decide

/-- C2 (code bug): sprite pixels do not land at (x+c, y+r).  Part 1:
drawing the one-row sprite 0x01 at origin (0,0) lights pixel
(row 0, col 8) and leaves (row 0, col 0) dark: bit c of a row lands at
column x + 8 - c, i.e. the eight columns x+1 .. x+8, never column x.
Part 2: at origin x = 56 the very first iteration computes
pixel_x = 64 and breaks, so the whole row — including the in-bounds
columns 57..63 — is skipped and the state is returned unchanged,
instead of clipping only the out-of-bounds pixels. -/
theorem C2_draw_placement_bug :
    ((vmD1.execute (.Display 0 0 1) inp0).map fun s =>
      (s.display 0 0, s.display 0 8)) = some (false, true) ∧
    vmD3.execute (.Display 0 1 1) inp0 = some vmD3 := by
  exact ⟨by decide, rfl⟩

/-- C3 counterexample: with x = 0xF the flag register is not set to the
carry.  At VF = 255, V0 = 1, add-with-carry on (x, y) = (15, 0) has
sum 256 (so the claim demands flag 1), yet the final VF is the wrapped
result 0, because the arm writes register 15 first and register x
afterwards. -/
theorem C3_counterexample_result_overwrites_flag :
    ((vmA.execute (.ArithmOp 15 0 4) inp0).map fun s => s.registers.get 15)
      = some 0 ∧
    ((vmA.execute (.ArithmOp 15 0 4) inp0).map fun s => s.registers.get 15)
      ≠ some 1 ∧
    256 ≤ vmA.registers.get 15 + vmA.registers.get 0 :=
  ⟨by decide, by decide, by decide⟩

/-- C3 (amended): for every pair of register indices and register
contents, add-with-carry stores the 8-bit wrapped sum into VX, the
subtract variants store the 8-bit wrapped difference into VX, and no
arithmetic instruction aborts; the flag (carry for add, 1 exactly when
no borrow occurred for the subtracts) lands in VF for x not 0xF, but
for x = 0xF the wrapped result overwrites the flag, since register 15
is written before register x.  The 0xFF + 0x01 and 0x01 - 0x02
examples hold as claimed (their x is not 0xF). -/
theorem C3_amended_arith_flags (vm : Chip8VM) (inp : Inputs) (x y : Nat)
    (hx : x % 16 ≠ 15) :
    (∃ s, vm.execute (.ArithmOp x y 4) inp = some s ∧
      s.registers.get x = (vm.registers.get x + vm.registers.get y) % 256 ∧
      s.registers.get 15 =
        (if 256 ≤ vm.registers.get x + vm.registers.get y then 1 else 0)) ∧
    (∃ s, vm.execute (.ArithmOp x y 5) inp = some s ∧
      s.registers.get x = (vm.registers.get x + 256 - vm.registers.get y) % 256 ∧
      s.registers.get 15 =
        (if vm.registers.get y ≤ vm.registers.get x then 1 else 0)) ∧
    (∃ s, vm.execute (.ArithmOp x y 7) inp = some s ∧
      s.registers.get x = (vm.registers.get y + 256 - vm.registers.get x) % 256 ∧
      s.registers.get 15 =
        (if vm.registers.get x ≤ vm.registers.get y then 1 else 0)) ∧
    (∃ s, vm.execute (.ArithmOp 15 y 4) inp = some s ∧
      s.registers.get 15 = (vm.registers.get 15 + vm.registers.get y) % 256) ∧
    ((vmA2.execute (.ArithmOp 0 1 4) inp0).map fun s =>
      (s.registers.get 0, s.registers.get 15)) = some (0, 1) ∧
    ((vmA3.execute (.ArithmOp 0 1 5) inp0).map fun s =>
      (s.registers.get 0, s.registers.get 15)) = some (255, 0) := by
  refine ⟨⟨_, rfl, ?_, ?_⟩, ⟨_, rfl, ?_, ?_⟩, ⟨_, rfl, ?_, ?_⟩, ⟨_, rfl, ?_⟩,
    by decide, by decide⟩ <;>
    simp [u8_overflowing_add, u8_overflowing_sub, Registers.get_set, hx,
      Ne.symm hx, Nat.not_lt, Nat.not_le]

/-- C3 witness: the amended statement applied at the machine with
V0 = 0xFF, V1 = 1 (so x = 0, a register pair with carry). -/
theorem C3_amended_witness :
    ∃ s, vmA2.execute (.ArithmOp 0 1 4) inp0 = some s ∧
      s.registers.get 0 = (vmA2.registers.get 0 + vmA2.registers.get 1) % 256 ∧
      s.registers.get 15 =
        (if 256 ≤ vmA2.registers.get 0 + vmA2.registers.get 1 then 1 else 0) :=
  (C3_amended_arith_flags vmA2 inp0 0 1 (by decide)).1

/-- C7: loading exactly RAM_SIZE - RAM_ROM_START = 3584 bytes succeeds
with the bytes copied verbatim to 0x200 onward (and the rest of memory
untouched); loading 3585 or more bytes is rejected outright — the
check precedes any write, so no partial state exists. -/
theorem C7_load_rom_boundary :
    (∀ (vm : Chip8VM) (rom : List Nat), rom.length = 3584 →
      ∃ s, vm.load_rom rom = some s ∧
        (∀ k, (hk : k < 3584) → s.ram ⟨0x200 + k, by omega⟩ = rom.getD k 0) ∧
        (∀ a : Fin 4096, a.val < 0x200 → s.ram a = vm.ram a)) ∧
    (∀ (vm : Chip8VM) (rom : List Nat), 3584 < rom.length →
      vm.load_rom rom = none) := by
  constructor
  · intro vm rom hlen
    have hle : rom.length ≤ RAM_SIZE - RAM_ROM_START := by
      simp only [RAM_SIZE, RAM_ROM_START]; omega
    simp only [Chip8VM.load_rom, if_pos hle]
    refine ⟨_, rfl, ?_, ?_⟩
    · intro k hk
      have hcond : RAM_ROM_START ≤ 0x200 + k ∧
          0x200 + k < RAM_ROM_START + rom.length := by
        simp only [RAM_ROM_START]; omega
      simp only [dif_pos hcond]
      have hidx : rom.get ⟨0x200 + k - RAM_ROM_START, by omega⟩
          = rom.get ⟨k, by omega⟩ :=
        congrArg rom.get (Fin.ext
          (show 0x200 + k - RAM_ROM_START = k by simp only [RAM_ROM_START]; omega))
      rw [hidx, List.get_eq_getElem, List.getD_eq_getElem rom 0 (by omega)]
    · intro a ha
      have hcond : ¬(RAM_ROM_START ≤ a.val ∧
          a.val < RAM_ROM_START + rom.length) := by
        simp only [RAM_ROM_START]; omega
      simp only [dif_neg hcond]
  · intro vm rom hlen
    have hgt : ¬ rom.length ≤ RAM_SIZE - RAM_ROM_START := by
      simp only [RAM_SIZE, RAM_ROM_START]; omega
    simp only [Chip8VM.load_rom, if_neg hgt]

/-- C7 witness: a 3584-byte image loads, a 3585-byte image is
rejected. -/
theorem C7_witness :
    (baseVM.load_rom (List.replicate 3584 1)).isSome = true ∧
    baseVM.load_rom (List.replicate 3585 1) = none := by
  obtain ⟨s, hs, -, -⟩ :=
    C7_load_rom_boundary.1 baseVM (List.replicate 3584 1)
      (by rw [List.length_replicate])
  refine ⟨by rw [hs]; rfl,
    C7_load_rom_boundary.2 baseVM _ (by rw [List.length_replicate]; omega)⟩

/-! ## Save/load loop characterisation -/

/-- The Save loop writes registers 0..n to i0..i0+n and touches nothing
else; it succeeds whenever the last address is in bounds. -/
theorem saveRegs_spec (regs : Registers) (i0 : Nat) (ram : Ram) (n : Nat)
    (hb : i0 + n < 4096) :
    ∃ r, saveRegs regs i0 ram n = some r ∧
      (∀ k, k ≤ n → ∀ (hk : i0 + k < 4096), r ⟨i0 + k, hk⟩ = regs.get k) ∧
      (∀ a : Fin 4096, a.val < i0 ∨ i0 + n < a.val → r a = ram a) := by
  induction n with
  | zero =>
      have h0 : i0 < 4096 := by omega
      refine ⟨Function.update ram ⟨i0, h0⟩ (regs.get 0), ?_, ?_, ?_⟩
      · simp only [saveRegs, ramSet, dif_pos h0]
      · intro k hk hik
        have hk0 : k = 0 := by omega
        subst hk0
        rw [Function.update_apply, if_pos (Fin.ext (show i0 + 0 = i0 from rfl))]
      · intro a ha
        rw [Function.update_apply,
          if_neg (fun hEq => by
            have hv := congrArg Fin.val hEq
            simp only at hv
            rcases ha with h | h <;> omega)]
  | succ n ih =>
      obtain ⟨r0, hr0, hin, hout⟩ := ih (by omega)
      have h1 : i0 + (n + 1) < 4096 := hb
      refine ⟨Function.update r0 ⟨i0 + (n + 1), h1⟩ (regs.get (n + 1)), ?_, ?_, ?_⟩
      · simp only [saveRegs, hr0, Option.some_bind, ramSet, dif_pos h1]
      · intro k hk hik
        rcases Nat.lt_or_ge k (n + 1) with hlt | hge
        · rw [Function.update_apply,
            if_neg (fun hEq => by
              have hv := congrArg Fin.val hEq
              simp only at hv
              omega)]
          exact hin k (by omega) hik
        · have hk1 : k = n + 1 := by omega
          subst hk1
          rw [Function.update_apply, if_pos rfl]
      · intro a ha
        rw [Function.update_apply,
          if_neg (fun hEq => by
            have hv := congrArg Fin.val hEq
            simp only at hv
            rcases ha with h | h <;> omega)]
        refine hout a ?_
        rcases ha with h | h
        · exact Or.inl h
        · exact Or.inr (by omega)

/-- The Load loop reads i0..i0+n into registers 0..n and touches no
other register; it succeeds whenever the last address is in bounds. -/
theorem loadRegs_spec (ram : Ram) (i0 : Nat) (regs : Registers) (n : Nat)
    (hb : i0 + n < 4096) (hn : n < 16) :
    ∃ r, loadRegs ram i0 regs n = some r ∧
      (∀ k, k ≤ n → ∀ (hk : i0 + k < 4096), r.get k = ram ⟨i0 + k, hk⟩) ∧
      (∀ j : Fin 16, n < j.val → r.v j = regs.v j) ∧
      r.pc = regs.pc ∧ r.i = regs.i := by
  induction n with
  | zero =>
      have h0 : i0 < 4096 := by omega
      refine ⟨regs.set 0 (ram ⟨i0, h0⟩), ?_, ?_, ?_, rfl, rfl⟩
      · simp only [loadRegs, ramGet, dif_pos h0, Option.map_some']
      · intro k hk hik
        have hk0 : k = 0 := by omega
        subst hk0
        rw [Registers.get_set, if_pos rfl]
        rfl
      · intro j hj
        simp only [Registers.set]
        rw [Function.update_apply,
          if_neg (fun hEq => by
            have hval := congrArg Fin.val hEq
            simp only at hval
            omega)]
  | succ n ih =>
      obtain ⟨r0, hr0, hget, hv, hpc, hi⟩ := ih (by omega) (by omega)
      have h1 : i0 + (n + 1) < 4096 := hb
      refine ⟨r0.set (n + 1) (ram ⟨i0 + (n + 1), h1⟩), ?_, ?_, ?_, ?_, ?_⟩
      · simp only [loadRegs, hr0, Option.some_bind, ramGet, dif_pos h1,
          Option.map_some']
      · intro k hk hik
        rcases Nat.lt_or_ge k (n + 1) with hlt | hge
        · rw [Registers.get_set, if_neg (by
            rw [Nat.mod_eq_of_lt (show k < 16 by omega),
              Nat.mod_eq_of_lt (show n + 1 < 16 by omega)]
            omega)]
          exact hget k (by omega) hik
        · have hk1 : k = n + 1 := by omega
          subst hk1
          rw [Registers.get_set, if_pos rfl]
      · intro j hj
        simp only [Registers.set]
        rw [Function.update_apply,
          if_neg (fun hEq => by
            have hval := congrArg Fin.val hEq
            simp only at hval
            rw [Nat.mod_eq_of_lt (show n + 1 < 16 by omega)] at hval
            omega)]
        exact hv j (by omega)
      · rw [Registers.pc_set]; exact hpc
      · rw [Registers.i_set]; exact hi

/-- C4 counterexample: with the increment quirk enabled, Save with
x = 0 leaves the index register at its old value 0x300 — the code adds
x, not x + 1. -/
theorem C4_counterexample_incr_by_x :
    ((vmS.execute (.Save 0) inp0).map fun s => s.registers.i) = some 0x300 ∧
    ((vmS.execute (.Save 0) inp0).map fun s => s.registers.i)
      ≠ some (0x300 + 0 + 1) ∧
    vmS.options.incr_i_when_mem = true :=
  ⟨by decide, by decide, by decide⟩

/-- C4 (amended): Save copies registers 0..x to memory I..I+x and Load
copies memory I..I+x into registers 0..x, leaving everything else
untouched; afterwards, with the increment-index quirk enabled the index
register equals its old value plus x (not x + 1), and with the quirk
disabled it is unchanged. -/
theorem C4_amended_save_load (vm : Chip8VM) (inp : Inputs) (x : Nat)
    (hx : x < 16) (hb : vm.registers.i + x < 4096) :
    (∃ s, vm.execute (.Save x) inp = some s ∧
      (∀ k, k ≤ x → ∀ (hk : vm.registers.i + k < 4096),
        s.ram ⟨vm.registers.i + k, hk⟩ = vm.registers.get k) ∧
      (∀ a : Fin 4096, a.val < vm.registers.i ∨ vm.registers.i + x < a.val →
        s.ram a = vm.ram a) ∧
      s.registers.i = (if vm.options.incr_i_when_mem = true
        then vm.registers.i + x else vm.registers.i) ∧
      s.registers.v = vm.registers.v ∧ s.registers.pc = vm.registers.pc) ∧
    (∃ s, vm.execute (.Load x) inp = some s ∧
      (∀ k, k ≤ x → ∀ (hk : vm.registers.i + k < 4096),
        s.registers.get k = vm.ram ⟨vm.registers.i + k, hk⟩) ∧
      (∀ j : Fin 16, x < j.val → s.registers.v j = vm.registers.v j) ∧
      s.registers.i = (if vm.options.incr_i_when_mem = true
        then vm.registers.i + x else vm.registers.i) ∧
      s.ram = vm.ram ∧ s.registers.pc = vm.registers.pc) := by
  constructor
  · obtain ⟨r, hr, hin, hout⟩ := saveRegs_spec vm.registers vm.registers.i vm.ram x hb
    simp only [Chip8VM.execute, hr, Option.map_some']
    exact ⟨_, rfl, hin, hout, rfl, rfl, rfl⟩
  · obtain ⟨r, hr, hget, hv, hpc, hi⟩ :=
      loadRegs_spec vm.ram vm.registers.i vm.registers x hb hx
    simp only [Chip8VM.execute, hr, Option.map_some']
    refine ⟨_, rfl, hget, hv, ?_, rfl, hpc⟩
    simp only [hi]

/-- C4 witness: the amended statement applied at the quirk-enabled
machine with index 0x300 and x = 3: the index advances to 0x303. -/
theorem C4_amended_witness :
    ((vmS.execute (.Save 3) inp0).map fun s => s.registers.i)
      = some (0x300 + 3) ∧
    ((vmS.execute (.Load 3) inp0).map fun s => s.registers.i)
      = some (0x300 + 3) := by
  obtain ⟨⟨s1, hs1, -, -, hi1, -, -⟩, ⟨s2, hs2, -, -, hi2, -, -⟩⟩ :=
    C4_amended_save_load vmS inp0 3 (by decide) (by decide)
  constructor
  · rw [hs1, Option.map_some', hi1]; decide
  · rw [hs2, Option.map_some', hi2]; decide

/-! ## Program-counter parity -/

/-- The Load loop never moves the program counter. -/
theorem loadRegs_pc (ram : Ram) (i0 : Nat) (regs : Registers) (n : Nat)
    (r : Registers) (h : loadRegs ram i0 regs n = some r) : r.pc = regs.pc := by
  induction n generalizing r with
  | zero =>
      simp only [loadRegs, Option.map_eq_some'] at h
      obtain ⟨val, -, rfl⟩ := h
      rw [Registers.pc_set]
  | succ n ih =>
      simp only [loadRegs, Option.bind_eq_some, Option.map_eq_some'] at h
      obtain ⟨r0, h0, val, -, rfl⟩ := h
      rw [Registers.pc_set]
      exact ih r0 h0

/-- C6 counterexample: the claimed invariant fails.  From the initial
state (pc = 0x200) of the one-word program 0x1201, a single
fetch/execute cycle reaches a state with pc = 0x201; the cycle after
that fetches (fetch succeeds) and leaves pc = 0x203 — odd immediately
after the fetch's advance. -/
theorem C6_counterexample_odd_pc :
    vmJ.registers.pc = 0x200 ∧
    Reachable vmJ vmJodd ∧
    vmJodd.registers.pc % 2 = 1 ∧
    vmJodd.fetch_instruction.isSome = true ∧
    (vmJodd.incr_pc).registers.pc % 2 = 1 := by
  refine ⟨rfl, Relation.ReflTransGen.single ⟨inp0, ?_⟩, by decide, by decide,
    by decide⟩
  rfl

/-- C6 (amended): the fetch advance by 2 preserves pc parity, so pc is
even after each fetch as long as every executed control transfer
targets an even address: if the pc and all saved return addresses are
even and the decoded instruction's jump targets are even, the state
after one whole fetch/decode/execute cycle again has an even pc and an
all-even stack.  (The counterexample shows the unconditional claim
fails: a Jump to an odd nnn breaks it.) -/
theorem C6_amended_parity (vm : Chip8VM) (inp : Inputs) (w : Nat) (s : Chip8VM)
    (hpc : vm.registers.pc % 2 = 0)
    (hstack : ∀ a ∈ vm.stack, a % 2 = 0)
    (hf : vm.fetch_instruction = some w)
    (ht : jumpTargetsEven vm (Chip8Instr.fromWord w))
    (hs : vm.run_once inp = some s) :
    s.registers.pc % 2 = 0 ∧ ∀ a ∈ s.stack, a % 2 = 0 := by
  rw [Chip8VM.run_once, hf, Option.some_bind] at hs
  have hpc2 : (vm.registers.pc + 2) % 2 = 0 := by omega
  have hpc4 : (vm.registers.pc + 2 + 2) % 2 = 0 := by omega
  generalize Chip8Instr.fromWord w = instr at ht hs
  cases instr with
  | Clear =>
      simp only [Chip8VM.execute, Option.some.injEq] at hs
      subst hs
      exact ⟨hpc2, hstack⟩
  | Return =>
      simp only [Chip8VM.execute, Chip8VM.incr_pc] at hs
      rcases hst : vm.stack with _ | ⟨a, rest⟩ <;> rw [hst] at hs
      · simp at hs
      · simp only [Option.some.injEq] at hs
        subst hs
        refine ⟨hstack a (by rw [hst]; exact List.mem_cons_self a rest), ?_⟩
        intro b hb
        exact hstack b (by rw [hst]; exact List.mem_cons_of_mem a hb)
  | Jump nnn =>
      simp only [jumpTargetsEven] at ht
      simp only [Chip8VM.execute, Option.some.injEq] at hs
      subst hs
      exact ⟨ht, hstack⟩
  | Call nnn =>
      simp only [jumpTargetsEven] at ht
      simp only [Chip8VM.execute, Chip8VM.incr_pc, Option.some.injEq] at hs
      subst hs
      refine ⟨ht, ?_⟩
      intro a ha
      rcases List.mem_cons.mp ha with h | h
      · subst h; exact hpc2
      · exact hstack a h
  | IfNE x nn =>
      simp only [Chip8VM.execute, Chip8VM.incr_pc] at hs
      split at hs <;> simp only [Option.some.injEq] at hs <;> subst hs
      · exact ⟨hpc4, hstack⟩
      · exact ⟨hpc2, hstack⟩
  | IfE x nn =>
      simp only [Chip8VM.execute, Chip8VM.incr_pc] at hs
      split at hs <;> simp only [Option.some.injEq] at hs <;> subst hs
      · exact ⟨hpc4, hstack⟩
      · exact ⟨hpc2, hstack⟩
  | IfRNE x y =>
      simp only [Chip8VM.execute, Chip8VM.incr_pc] at hs
      split at hs <;> simp only [Option.some.injEq] at hs <;> subst hs
      · exact ⟨hpc4, hstack⟩
      · exact ⟨hpc2, hstack⟩
  | IfRE x y =>
      simp only [Chip8VM.execute, Chip8VM.incr_pc] at hs
      split at hs <;> simp only [Option.some.injEq] at hs <;> subst hs
      · exact ⟨hpc4, hstack⟩
      · exact ⟨hpc2, hstack⟩
  | Set x nn =>
      simp only [Chip8VM.execute, Option.some.injEq] at hs
      subst hs
      exact ⟨hpc2, hstack⟩
  | Add x nn =>
      simp only [Chip8VM.execute, Option.some.injEq] at hs
      subst hs
      exact ⟨hpc2, hstack⟩
  | SetR x y =>
      simp only [Chip8VM.execute, Option.some.injEq] at hs
      subst hs
      exact ⟨hpc2, hstack⟩
  | BitOp x y op =>
      simp only [Chip8VM.execute] at hs
      split at hs <;>
        first
        | (simp only [Option.some.injEq] at hs; subst hs; exact ⟨hpc2, hstack⟩)
        | simp at hs
  | ArithmOp x y op =>
      simp only [Chip8VM.execute] at hs
      split at hs <;>
        first
        | (simp only [Option.some.injEq] at hs; subst hs; exact ⟨hpc2, hstack⟩)
        | simp at hs
  | ShiftOp x y op =>
      simp only [Chip8VM.execute, Chip8VM.incr_pc] at hs
      rcases hos : vm.options.old_shift <;> simp only [hos] at hs <;>
        simp only [Bool.false_eq_true, if_false, if_true] at hs <;>
        split at hs <;>
          first
          | (simp only [Option.some.injEq] at hs; subst hs; exact ⟨hpc2, hstack⟩)
          | simp at hs
  | SetI nnn =>
      simp only [Chip8VM.execute, Option.some.injEq] at hs
      subst hs
      exact ⟨hpc2, hstack⟩
  | JumpOff nnn =>
      simp only [jumpTargetsEven] at ht
      simp only [Chip8VM.execute, Chip8VM.incr_pc] at hs
      rcases hnj : vm.options.new_jump_off <;>
        simp only [hnj, Bool.false_eq_true, if_false, if_true] at hs ht <;>
        simp only [Option.some.injEq] at hs <;> subst hs
      · exact ⟨ht, hstack⟩
      · exact ⟨ht, hstack⟩
  | Rand x nn =>
      simp only [Chip8VM.execute, Option.some.injEq] at hs
      subst hs
      exact ⟨hpc2, hstack⟩
  | Display vx vy n =>
      simp only [Chip8VM.execute, Chip8VM.draw_sprite, Option.map_eq_some'] at hs
      obtain ⟨sprite, -, rfl⟩ := hs
      exact ⟨hpc2, hstack⟩
  | KeyUp x =>
      simp only [Chip8VM.execute, Option.some.injEq] at hs
      subst hs
      exact ⟨hpc2, hstack⟩
  | KeyDown x =>
      simp only [Chip8VM.execute, Option.some.injEq] at hs
      subst hs
      exact ⟨hpc2, hstack⟩
  | GetDelay x =>
      simp only [Chip8VM.execute, Option.some.injEq] at hs
      subst hs
      exact ⟨hpc2, hstack⟩
  | GetKey x =>
      simp only [Chip8VM.execute] at hs
      split at hs <;> simp only [Option.some.injEq] at hs <;> subst hs <;>
        exact ⟨hpc2, hstack⟩
  | SetDelay x =>
      simp only [Chip8VM.execute, Option.some.injEq] at hs
      subst hs
      exact ⟨hpc2, hstack⟩
  | SetBuzzer x =>
      simp only [Chip8VM.execute, Option.some.injEq] at hs
      subst hs
      exact ⟨hpc2, hstack⟩
  | IncrI x =>
      simp only [Chip8VM.execute, Option.some.injEq] at hs
      subst hs
      exact ⟨hpc2, hstack⟩
  | Char x =>
      simp only [Chip8VM.execute, Option.some.injEq] at hs
      subst hs
      exact ⟨hpc2, hstack⟩
  | Decimal x =>
      simp only [Chip8VM.execute, Option.bind_eq_some, Option.map_eq_some'] at hs
      obtain ⟨r1, -, r2, -, r3, -, rfl⟩ := hs
      exact ⟨hpc2, hstack⟩
  | Save x =>
      simp only [Chip8VM.execute, Option.map_eq_some'] at hs
      obtain ⟨r, -, rfl⟩ := hs
      exact ⟨hpc2, hstack⟩
  | Load x =>
      simp only [Chip8VM.execute, Option.map_eq_some'] at hs
      obtain ⟨r, hr, rfl⟩ := hs
      refine ⟨?_, hstack⟩
      have hpcr := loadRegs_pc _ _ _ _ _ hr
      show r.pc % 2 = 0
      rw [hpcr]
      exact hpc2
  | Unknown =>
      simp [Chip8VM.execute] at hs

/-- C6 witness: one cycle of the one-word program 0x1202 (a jump to an
even target) from the even initial state lands in a state with even pc
and even stack. -/
theorem C6_amended_witness :
    vmJw2.registers.pc % 2 = 0 ∧ ∀ a ∈ vmJw2.stack, a % 2 = 0 :=
  C6_amended_parity vmJw inp0 0x1202 vmJw2 (by decide)
    (fun a ha => absurd ha (List.not_mem_nil a))
    (by rfl) (show (0x202 : Nat) % 2 = 0 by decide) (by rfl)

/-- C8 (amended): executing Return with an empty call stack is fatal,
executing a word decoded to Unknown is fatal, and an ArithmOp variant
whose sub-opcode is none of 4/5/7 (e.g. the decodable word 0x8018) is
fatal; but the unimplemented key-state variants KeyUp and KeyDown are
not fatal — execute returns the state unchanged and the run continues
past them. -/
theorem C8_amended_fatal_paths :
    (∀ (vm : Chip8VM) (inp : Inputs), vm.stack = [] →
      vm.execute .Return inp = none) ∧
    (∀ (vm : Chip8VM) (inp : Inputs), vm.execute .Unknown inp = none) ∧
    (∀ (vm : Chip8VM) (inp : Inputs) (x y : Nat),
      vm.execute (.ArithmOp x y 8) inp = none) ∧
    (∀ (vm : Chip8VM) (inp : Inputs) (x : Nat),
      vm.execute (.KeyUp x) inp = some vm) ∧
    (∀ (vm : Chip8VM) (inp : Inputs) (x : Nat),
      vm.execute (.KeyDown x) inp = some vm) := by
  refine ⟨fun vm inp h => ?_, fun vm inp => rfl, fun vm inp x y => rfl,
    fun vm inp x => rfl, fun vm inp x => rfl⟩
  simp only [Chip8VM.execute, h]

/-- C8 witness: the amended statement applied at a concrete machine
with an empty stack. -/
theorem C8_amended_witness :
    baseVM.execute .Return inp0 = none ∧
    baseVM.execute .Unknown inp0 = none ∧
    baseVM.execute (.ArithmOp 1 2 8) inp0 = none ∧
    baseVM.execute (.KeyUp 0) inp0 = some baseVM ∧
    baseVM.execute (.KeyDown 0) inp0 = some baseVM :=
  ⟨C8_amended_fatal_paths.1 baseVM inp0 rfl,
   C8_amended_fatal_paths.2.1 baseVM inp0,
   C8_amended_fatal_paths.2.2.1 baseVM inp0 1 2,
   C8_amended_fatal_paths.2.2.2.1 baseVM inp0 0,
   C8_amended_fatal_paths.2.2.2.2 baseVM inp0 0⟩

/-- C8 counterexample: the decoded KeyUp variant is unimplemented (its
execute arm only prints) yet reaching it is not fatal — the run
continues, silently skipping past the instruction. -/
theorem C8_counterexample_keyup_continues :
    baseVM.execute (.KeyUp 0) inp0 = some baseVM ∧
    baseVM.execute (.KeyUp 0) inp0 ≠ none := by
  refine ⟨rfl, ?_⟩
  intro h
  simp only [Chip8VM.execute] at h
  exact Option.noConfusion h

end Chip8
